import Mathlib

/-!
# Verification of `src/agents/coder/coder.py`

A shallow embedding of the `Coder` component: the response parser
(`validate_response`), the markdown serializer
(`response_to_markdown_prompt`), project persistence
(`save_code_to_project`, `get_project_path`), the simulated
code-writing event emission (`emulate_code_writing`) and the
orchestration (`execute`).

Python strings are modelled as `List Char`; Python string methods
(`strip`, `split`, `rfind`, `lower`, `replace`, `startswith`, `join`)
are reproduced over lists.  A Python call that raises is modelled by
an `Option`/`Except` returning `none`/`.error`.
-/

namespace Coder

/-! ## Python string primitives over `List Char` -/

/-- The whitespace characters stripped by Python `str.strip()` (ASCII range). -/
def isPySpace (c : Char) : Bool :=
  c = ' ' || c = '\t' || c = '\n' || c = '\r' || c = '\x0b' || c = '\x0c'

/-- Python `s.strip()`: drop leading and trailing whitespace. -/
def pyStrip (l : List Char) : List Char :=
  ((l.dropWhile isPySpace).reverse.dropWhile isPySpace).reverse

/-- Does `pat` occur as a contiguous substring of `l` starting at index `i`? -/
def occursAt (pat l : List Char) (i : Nat) : Bool :=
  pat.isPrefixOf (l.drop i)

/-- Python `s.split(pat, 1)[1]`: the text after the first occurrence of
`pat`, or `none` (an `IndexError`) when `pat` does not occur. -/
def splitFirst (pat : List Char) : List Char → Option (List Char)
  | [] => if pat.isPrefixOf ([] : List Char) then some [] else none
  | c :: cs =>
    if pat.isPrefixOf (c :: cs) then some ((c :: cs).drop pat.length)
    else splitFirst pat cs

/-- Python `s.rfind(pat)` restricted to a found result: the largest index
at which `pat` occurs in `l`, or `none` when it does not occur. -/
def rfindSub (pat l : List Char) : Option Nat :=
  ((List.range (l.length + 1)).filter (fun i => occursAt pat l i)).getLast?

/-- Python `s[:s.rfind(pat)]`: everything before the last occurrence of
`pat`; when `rfind` returns `-1` the slice `s[:-1]` drops the final
character. -/
def cutAfterLast (pat l : List Char) : List Char :=
  match rfindSub pat l with
  | some j => l.take j
  | none => l.take (l.length - 1)

/-- Python `pat in s`. -/
def containsSub (pat l : List Char) : Bool :=
  (List.range (l.length + 1)).any (fun i => occursAt pat l i)

/-- The number of indices at which `pat` occurs in `l`. -/
def countOcc (pat l : List Char) : Nat :=
  ((List.range (l.length + 1)).filter (fun i => occursAt pat l i)).length

/-- Python `s.split(c)` for a one-character separator: always returns at
least one (possibly empty) piece. -/
def splitOnChar (c : Char) : List Char → List (List Char)
  | [] => [[]]
  | x :: xs =>
    if x = c then [] :: splitOnChar c xs
    else
      match splitOnChar c xs with
      | [] => [[x]]
      | y :: ys => (x :: y) :: ys

/-- Python `sep.join(pieces)`. -/
def joinSep (sep : List Char) : List (List Char) → List Char
  | [] => []
  | [x] => x
  | x :: y :: ys => x ++ sep ++ joinSep sep (y :: ys)

/-- Python `s.lower().replace(" ", "-")` as used on project names. -/
def pySlug (name : List Char) : List Char :=
  (name.map Char.toLower).map (fun c => if c = ' ' then '-' else c)

/-! ## Data model -/

/-- One parsed `{"file": ..., "code": ...}` record. -/
structure PyFile where
  file : List Char
  code : List Char
deriving DecidableEq, Repr

/-- The `Union[List[Dict[str, str]], bool]` return type that
`validate_response` is annotated with. -/
inductive PyVal where
  | vlist : List PyFile → PyVal
  | vbool : Bool → PyVal
deriving DecidableEq, Repr

/-- Python truthiness test `not valid_response` (negated): a list is falsy
iff empty, a bool is falsy iff `False`. -/
def pyFalsy : PyVal → Bool
  | .vlist fs => fs.isEmpty
  | .vbool b => !b

/-- The `~~~` fence delimiter. -/
def tildeFence : List Char := "~~~".toList

/-- The triple-backtick code-fence marker. -/
def fenceLine : List Char := "```".toList

/-- The `File: ` header marker. -/
def fileTag : List Char := "File: ".toList

/-- The backtick character. -/
def backquote : Char := Char.ofNat 96

/-! ## `Coder.validate_response` -/

/-- Truthiness of `current_file` (initially `None`, otherwise a string;
the empty string is falsy). -/
def fileTruthy : Option (List Char) → Bool
  | none => false
  | some s => !s.isEmpty

/-- `if current_file and current_code: result.append({"file": current_file,
"code": "\n".join(current_code)})` as a zero-or-one element list. -/
def flushPart (cf : Option (List Char)) (cc : List (List Char)) : List PyFile :=
  if fileTruthy cf && !cc.isEmpty then [⟨cf.getD [], joinSep ['\n'] cc⟩] else []

/-- The line scan of `validate_response`: state is the current file name,
the accumulated code lines, the (unused) fenced-block flag and the
result list.  `none` models the `IndexError` raised by
`line.split("`")[1]` on a `File: ` line with no backtick. -/
def parseLines : List (List Char) → Option (List Char) → List (List Char) → Bool →
    List PyFile → Option (List PyFile)
  | [], cf, cc, _, acc => some (acc ++ flushPart cf cc)
  | line :: rest, cf, cc, cb, acc =>
    if fileTag.isPrefixOf line then
      match (splitOnChar backquote line)[1]? with
      | none => none
      | some name => parseLines rest (some (pyStrip name)) [] false (acc ++ flushPart cf cc)
    else if fenceLine.isPrefixOf line then
      parseLines rest cf cc (!cb) acc
    else
      parseLines rest cf (cc ++ [line]) cb acc

/-- The line-level stage of `validate_response`: strip the text between
the fences, split it into lines and scan them. -/
def lineParse (t : List Char) : Option PyVal :=
  (parseLines (splitOnChar '\n' (pyStrip t)) none [] false []).map PyVal.vlist

/-- `Coder.validate_response`.  `none` models an uncaught exception:
the `IndexError` from `response.split("~~~", 1)[1]` when no `~~~`
occurs, or the one from a `File: ` line without a backtick. -/
def validate_response (response : List Char) : Option PyVal :=
  match splitFirst tildeFence (pyStrip response) with
  | none => none
  | some r1 => lineParse (cutAfterLast tildeFence r1)

/-! ## `Coder.response_to_markdown_prompt` -/

/-- One serialized entry: ``File: `path`:`` followed by a fenced code block. -/
def entryText (f : PyFile) : List Char :=
  "File: `".toList ++ f.file ++ "`:\n```\n".toList ++ f.code ++ "\n```".toList

/-- `Coder.response_to_markdown_prompt`: the entries joined by newlines
inside one `~~~ ... ~~~` envelope. -/
def response_to_markdown_prompt (files : List PyFile) : List Char :=
  "~~~\n".toList ++ joinSep ['\n'] (files.map entryText) ++ "\n~~~".toList

/-! ## `Coder.get_project_path` and `Coder.save_code_to_project` -/

/-- `Coder.get_project_path`. -/
def get_project_path (project_dir name : List Char) : List Char :=
  project_dir ++ '/' :: pySlug name

/-- `file_path[:file_path.rfind("/")]`. -/
def dirPart (p : List Char) : List Char :=
  cutAfterLast ['/'] p

/-- `Coder.save_code_to_project`, with the filesystem modelled as the
ordered list of `(path, contents)` writes performed.  Returns the writes
together with the final `file_path_dir` (initially `None`). -/
def save_code_to_project (project_dir : List Char) (response : List PyFile)
    (project_name : List Char) : List (List Char × List Char) × Option (List Char) :=
  response.foldl
    (fun acc f =>
      let file_path := project_dir ++ '/' :: pySlug project_name ++ '/' :: f.file
      (acc.1 ++ [(file_path, f.code)], some (dirPart file_path)))
    ([], none)

/-- Stated from the spec's words for project-path derivation: lowercase
the project name, replace every space with a hyphen, and join the slug
to the projects root.  Used to compare `get_project_path` against the
spec sentence. -/
def specProjectPath (root name : List Char) : List Char :=
  root ++ '/' :: (name.map fun c => if Char.toLower c = ' ' then '-' else Char.toLower c)

/-! ## `Coder.emulate_code_writing` -/

/-- The `terminal_session` sub-state of an agent snapshot. -/
structure TerminalSession where
  title : List Char
  command : List Char
  output : List Char
deriving DecidableEq, Repr

/-- An agent-state snapshot; the browser session is opaque to this
component and modelled by a type parameter. -/
structure Snapshot (B : Type) where
  browser_session : B
  internal_monologue : List Char
  terminal_session : TerminalSession
deriving DecidableEq, Repr

/-- The fixed internal-monologue message set while writing code. -/
def monologueText : List Char := "正在寫程式碼...".toList

/-- The snapshot built in one iteration of `emulate_code_writing`:
`new_state()` with the browser session of the latest state, the fixed
monologue, and a terminal session derived from the file. -/
def writingSnap {B : Type} (fresh : Snapshot B) (browser : B) (f : PyFile) : Snapshot B :=
  { fresh with
    browser_session := browser
    internal_monologue := monologueText
    terminal_session :=
      { fresh.terminal_session with
        title := "編輯 ".toList ++ f.file
        command := "vim ".toList ++ f.file
        output := f.code } }

/-- `Coder.emulate_code_writing`, with the external state store modelled
as the list of snapshots for the project (append-only; the latest state
is the last element).  `fresh` is the default snapshot returned by
`AgentState().new_state()`.  `none` models the error raised when
`get_latest_state` finds no snapshot. -/
def emulate_code_writing {B : Type} (fresh : Snapshot B) (store : List (Snapshot B)) :
    List PyFile → Option (List (Snapshot B))
  | [] => some store
  | f :: fs =>
    match store.getLast? with
    | none => none
    | some cur => emulate_code_writing fresh (store ++ [writingSnap fresh cur.browser_session f]) fs

/-! ## `Coder.execute` -/

/-- The ways an `execute` call can raise instead of returning. -/
inductive ExecErr where
  /-- `validate_response` raised (e.g. no `~~~` in the response). -/
  | parseRaise : ExecErr
  /-- the retry `self.execute(step_by_step_plan, user_context,
  search_results)` omits the required `project_name` argument, so the
  call raises `TypeError` before anything else happens. -/
  | retryArity : ExecErr
  /-- `emulate_code_writing` raised (empty state store). -/
  | stateRaise : ExecErr
  /-- iterating over a non-list `valid_response`. -/
  | iterRaise : ExecErr
deriving DecidableEq, Repr

/-- `Coder.execute`.  The rendered prompt is submitted to the model
client; the client is modelled as the sequence of responses it would
return on successive attempts.  The first response is parsed; on a falsy
parse the code executes `return self.execute(step_by_step_plan,
user_context, search_results)`, a call that is missing the required
`project_name` parameter and therefore raises `TypeError` immediately,
so no further response is ever requested. -/
def execute {B : Type} (responses : Nat → List Char) (fresh : Snapshot B)
    (store : List (Snapshot B)) : Except ExecErr (PyVal × List (Snapshot B)) :=
  match validate_response (responses 0) with
  | none => .error .parseRaise
  | some v =>
    if pyFalsy v then .error .retryArity
    else
      match v with
      | .vbool _ => .error .iterRaise
      | .vlist files =>
        match emulate_code_writing fresh store files with
        | none => .error .stateRaise
        | some store2 => .ok (v, store2)

/-- The model client of the retry scenario: the first response parses to
the empty (falsy) list, every later response is well-formed. -/
def c2Responses : Nat → List Char := fun n =>
  if n = 0 then "~~~\nno files yet\n~~~".toList
  else "~~~\nFile: `a.py`:\n```\nx\n```\n~~~".toList

/-! ## Derived descriptions of the serialized wire format -/

/-- The header line ``File: `path`:`` of a serialized entry. -/
def headLine (f : PyFile) : List Char :=
  "File: `".toList ++ f.file ++ "`:".toList

/-- The lines of one serialized entry. -/
def entryLines (f : PyFile) : List (List Char) :=
  headLine f :: fenceLine :: (splitOnChar '\n' f.code ++ [fenceLine])

/-- A file path that survives the round trip: non-empty, without
backticks or newlines, and with no surrounding whitespace. -/
def goodName (n : List Char) : Prop :=
  n ≠ [] ∧ backquote ∉ n ∧ '\n' ∉ n ∧ pyStrip n = n

/-- File content that survives the round trip: non-empty and with no
line that the scanner would treat as a `File: ` header or a code fence. -/
def goodCode (code : List Char) : Prop :=
  code ≠ [] ∧ ∀ l ∈ splitOnChar '\n' code,
    fileTag.isPrefixOf l = false ∧ fenceLine.isPrefixOf l = false

instance : DecidablePred goodName := fun n => by
  unfold goodName
  infer_instance

instance : DecidablePred goodCode := fun c => by
  unfold goodCode
  infer_instance

/-! ## Occurrence and `splitFirst` / `rfindSub` lemmas -/

theorem occursAt_cons_succ (pat : List Char) (c : Char) (cs : List Char) (i : Nat) :
    occursAt pat (c :: cs) (i + 1) = occursAt pat cs i := rfl

theorem occursAt_drop (pat l : List Char) (k j : Nat) :
    occursAt pat (l.drop k) j = occursAt pat l (k + j) := by
  unfold occursAt
  rw [List.drop_drop]

theorem occursAt_le_length {pat l : List Char} {i : Nat} (hp : pat ≠ [])
    (h : occursAt pat l i = true) : i ≤ l.length := by
  by_contra hgt
  push_neg at hgt
  unfold occursAt at h
  rw [List.drop_eq_nil_of_le (Nat.le_of_lt hgt)] at h
  rw [ List.isPrefixOf_iff_prefix] at h
  exact hp (List.prefix_nil.mp h)

theorem splitFirst_eq_none_iff {pat : List Char} (hp : pat ≠ []) (l : List Char) :
    splitFirst pat l = none ↔ ∀ i, occursAt pat l i = false := by
  induction l with
  | nil =>
    have hpre : pat.isPrefixOf ([] : List Char) = false := by
      cases pat with
      | nil => exact absurd rfl hp
      | cons a as => rfl
    constructor
    · intro _ i
      unfold occursAt
      simp [hpre]
    · intro _
      simp [splitFirst, hpre]
  | cons c cs ih =>
    by_cases hpre : pat.isPrefixOf (c :: cs) = true
    · constructor
      · intro hnone
        simp [splitFirst, hpre] at hnone
      · intro hall
        have := hall 0
        unfold occursAt at this
        simp [hpre] at this
    · have hpre' : pat.isPrefixOf (c :: cs) = false := by
        cases h : pat.isPrefixOf (c :: cs) with
        | false => rfl
        | true => exact absurd h hpre
      have hstep : splitFirst pat (c :: cs) = splitFirst pat cs := by
        simp [splitFirst, hpre']
      rw [hstep, ih]
      constructor
      · intro hall i
        cases i with
        | zero => exact hpre'
        | succ j => exact hall j
      · intro hall i
        exact hall (i + 1)

theorem splitFirst_eq_of_first {pat l : List Char} {i : Nat}
    (hocc : occursAt pat l i = true) (hmin : ∀ j, j < i → occursAt pat l j = false) :
    splitFirst pat l = some (l.drop (i + pat.length)) := by
  induction l generalizing i with
  | nil =>
    have hnil : pat = [] := by
      unfold occursAt at hocc
      rw [ List.isPrefixOf_iff_prefix] at hocc
      exact List.prefix_nil.mp (by simpa using hocc)
    subst hnil
    simp [splitFirst]
  | cons c cs ih =>
    cases i with
    | zero =>
      unfold occursAt at hocc
      simp only [List.drop_zero] at hocc
      simp [splitFirst, hocc]
    | succ j =>
      have h0 : pat.isPrefixOf (c :: cs) = false := by
        have := hmin 0 (Nat.succ_pos j)
        unfold occursAt at this
        simpa using this
      have hstep : splitFirst pat (c :: cs) = splitFirst pat cs := by
        simp [splitFirst, h0]
      have hocc' : occursAt pat cs j = true := hocc
      have hmin' : ∀ k, k < j → occursAt pat cs k = false := by
        intro k hk
        exact hmin (k + 1) (Nat.succ_lt_succ hk)
      rw [hstep, ih hocc' hmin']
      congr 1
      show cs.drop (j + pat.length) = (c :: cs).drop (j + 1 + pat.length)
      have : j + 1 + pat.length = (j + pat.length) + 1 := by omega
      rw [this]
      rfl

theorem filter_range_getLast {p : Nat → Bool} {j : Nat} :
    ∀ n, j < n → p j = true → (∀ k, j < k → p k = false) →
    ((List.range n).filter p).getLast? = some j := by
  intro n
  induction n with
  | zero => intro h; omega
  | succ n ih =>
    intro hlt hpj hafter
    rw [List.range_succ, List.filter_append]
    by_cases hj : j = n
    · subst hj
      have : List.filter p [j] = [j] := by simp [hpj]
      rw [this, List.getLast?_concat]
    · have hjn : j < n := by omega
      have hpn : p n = false := hafter n hjn
      have : List.filter p [n] = [] := by simp [hpn]
      rw [this, List.append_nil, ih hjn hpj hafter]

theorem rfindSub_append_self {pat : List Char} (hp : pat ≠ []) (a : List Char) :
    rfindSub pat (a ++ pat) = some a.length := by
  unfold rfindSub
  apply filter_range_getLast
  · have := List.length_append a pat
    have hplen : 0 < pat.length := List.length_pos.mpr hp
    omega
  · unfold occursAt
    rw [List.drop_left, List.isPrefixOf_iff_prefix]
  · intro k hk
    cases h : occursAt pat (a ++ pat) k with
    | false => rfl
    | true =>
      exfalso
      unfold occursAt at h
      rw [ List.isPrefixOf_iff_prefix] at h
      have hlen := List.IsPrefix.length_le h
      rw [List.length_drop, List.length_append] at hlen
      have hplen : 0 < pat.length := List.length_pos.mpr hp
      omega

theorem cutAfterLast_append_self {pat : List Char} (hp : pat ≠ []) (a : List Char) :
    cutAfterLast pat (a ++ pat) = a := by
  unfold cutAfterLast
  rw [rfindSub_append_self hp]
  exact List.take_left a pat

theorem rfindSub_eq_none_iff {pat : List Char} (hp : pat ≠ []) (l : List Char) :
    rfindSub pat l = none ↔ ∀ i, occursAt pat l i = false := by
  unfold rfindSub
  rw [List.getLast?_eq_none_iff, List.filter_eq_nil_iff]
  constructor
  · intro h i
    by_cases hle : i ≤ l.length
    · have hi : i ∈ List.range (l.length + 1) := List.mem_range.mpr (by omega)
      have := h i hi
      simpa using this
    · cases hocc : occursAt pat l i with
      | false => rfl
      | true => exact absurd (occursAt_le_length hp hocc) hle
  · intro h i _
    simp [h i]

theorem cutAfterLast_of_none {pat l : List Char} (h : rfindSub pat l = none) :
    cutAfterLast pat l = l.take (l.length - 1) := by
  unfold cutAfterLast
  rw [h]

/-! ## Transfer of non-occurrence along prefixes, suffixes and `pyStrip` -/

theorem noOcc_of_suffix {pat l m : List Char} (h : m <:+ l)
    (hno : ∀ i, occursAt pat l i = false) : ∀ i, occursAt pat m i = false := by
  obtain ⟨u, hu⟩ := h
  intro i
  have : occursAt pat m i = occursAt pat l (u.length + i) := by
    unfold occursAt
    rw [← hu, List.drop_append]
  rw [this]
  exact hno _

theorem noOcc_of_pre {pat l m : List Char} (hp : pat ≠ []) (h : m <+: l)
    (hno : ∀ i, occursAt pat l i = false) : ∀ i, occursAt pat m i = false := by
  obtain ⟨v, hv⟩ := h
  intro i
  cases hocc : occursAt pat m i with
  | false => rfl
  | true =>
    exfalso
    have hle : i ≤ m.length := occursAt_le_length hp hocc
    have hdrop : l.drop i = m.drop i ++ v := by
      rw [← hv] at *
      rw [List.drop_append_eq_append_drop, Nat.sub_eq_zero_of_le hle, List.drop_zero]
    have : occursAt pat l i = true := by
      unfold occursAt at hocc ⊢
      rw [ List.isPrefixOf_iff_prefix] at hocc ⊢
      rw [hdrop]
      exact hocc.trans (List.prefix_append _ _)
    rw [hno i] at this
    exact Bool.noConfusion this

theorem noOcc_pyStrip {pat l : List Char} (hp : pat ≠ [])
    (hno : ∀ i, occursAt pat l i = false) : ∀ i, occursAt pat (pyStrip l) i = false := by
  have h1 : ∀ i, occursAt pat (l.dropWhile isPySpace) i = false :=
    noOcc_of_suffix (List.dropWhile_suffix _) hno
  have hsuf : (l.dropWhile isPySpace).reverse.dropWhile isPySpace <:+
      (l.dropWhile isPySpace).reverse := List.dropWhile_suffix _
  have h2 : ((l.dropWhile isPySpace).reverse.dropWhile isPySpace).reverse <+:
      (l.dropWhile isPySpace).reverse.reverse := List.reverse_prefix.mpr hsuf
  rw [List.reverse_reverse] at h2
  exact noOcc_of_pre hp h2 h1

/-! ## Structural lemmas about `pyStrip` -/

theorem pyStrip_nil : pyStrip [] = [] := rfl

theorem pyStrip_eq_self {l : List Char}
    (h1 : ∀ c, l.head? = some c → isPySpace c = false)
    (h2 : ∀ c, l.getLast? = some c → isPySpace c = false) : pyStrip l = l := by
  cases l with
  | nil => rfl
  | cons a as =>
    have ha : isPySpace a = false := h1 a rfl
    have hdw : (a :: as).dropWhile isPySpace = a :: as := by
      rw [List.dropWhile_cons, ha]
      simp
    unfold pyStrip
    rw [hdw]
    cases hrev : (a :: as).reverse with
    | nil => exact absurd hrev (by simp)
    | cons d ds =>
      have hd : (a :: as).getLast? = some d := by
        rw [← List.head?_reverse, hrev]
        rfl
      have hds : isPySpace d = false := h2 d hd
      rw [List.dropWhile_cons, hds]
      simp [← hrev]

theorem pyStrip_cons_space {c : Char} {l : List Char} (h : isPySpace c = true) :
    pyStrip (c :: l) = pyStrip l := by
  unfold pyStrip
  rw [List.dropWhile_cons, h]
  simp

theorem pyStrip_concat_space {c : Char} {l : List Char} (h : isPySpace c = true) :
    pyStrip (l ++ [c]) = pyStrip l := by
  unfold pyStrip
  rw [List.dropWhile_append]
  by_cases he : (l.dropWhile isPySpace).isEmpty = true
  · rw [if_pos he]
    have : List.dropWhile isPySpace [c] = [] := by simp [List.dropWhile_cons, h]
    rw [this]
    rw [List.isEmpty_iff] at he
    rw [he]
  · rw [if_neg he]
    rw [List.reverse_append]
    show (List.dropWhile isPySpace ([c].reverse ++ _)).reverse = _
    simp only [List.reverse_cons, List.reverse_nil, List.nil_append, List.singleton_append]
    rw [List.dropWhile_cons, h]
    simp

/-! ## Structural lemmas about `splitOnChar` and `joinSep` -/

theorem splitOnChar_nil (c : Char) : splitOnChar c [] = [[]] := rfl

theorem splitOnChar_ne_nil (c : Char) (l : List Char) : splitOnChar c l ≠ [] := by
  cases l with
  | nil => simp [splitOnChar]
  | cons x xs =>
    unfold splitOnChar
    by_cases hx : x = c
    · simp [hx]
    · rw [if_neg hx]
      cases splitOnChar c xs with
      | nil => simp
      | cons y ys => simp

theorem splitOnChar_cons (c x : Char) (xs : List Char) :
    splitOnChar c (x :: xs) =
      if x = c then [] :: splitOnChar c xs
      else
        match splitOnChar c xs with
        | [] => [[x]]
        | y :: ys => (x :: y) :: ys := rfl

theorem splitOnChar_append_cons (c : Char) (x y : List Char) :
    splitOnChar c (x ++ c :: y) = splitOnChar c x ++ splitOnChar c y := by
  induction x with
  | nil =>
    rw [List.nil_append, splitOnChar_cons, if_pos rfl]
    rfl
  | cons a x' ih =>
    by_cases ha : a = c
    · subst ha
      rw [List.cons_append, splitOnChar_cons, if_pos rfl, ih, splitOnChar_cons, if_pos rfl]
      rfl
    · obtain ⟨y₀, ys, hys⟩ := List.exists_cons_of_ne_nil (splitOnChar_ne_nil c x')
      rw [List.cons_append, splitOnChar_cons, if_neg ha, ih, hys,
        splitOnChar_cons, if_neg ha, hys]
      simp [List.cons_append]

theorem splitOnChar_eq_single {c : Char} {l : List Char} (h : ∀ a ∈ l, a ≠ c) :
    splitOnChar c l = [l] := by
  induction l with
  | nil => rfl
  | cons x xs ih =>
    have hx : x ≠ c := h x (by simp)
    have hxs : splitOnChar c xs = [xs] := ih (fun a ha => h a (by simp [ha]))
    rw [splitOnChar_cons, if_neg hx, hxs]

theorem joinSep_cons_cons (sep x y : List Char) (ys : List (List Char)) :
    joinSep sep (x :: y :: ys) = x ++ sep ++ joinSep sep (y :: ys) := rfl

theorem joinSep_splitOnChar (c : Char) (l : List Char) :
    joinSep [c] (splitOnChar c l) = l := by
  induction l with
  | nil => rfl
  | cons x xs ih =>
    obtain ⟨y₀, ys, hys⟩ := List.exists_cons_of_ne_nil (splitOnChar_ne_nil c xs)
    by_cases hx : x = c
    · subst hx
      rw [splitOnChar_cons, if_pos rfl, hys]
      rw [hys] at ih
      rw [joinSep_cons_cons]
      simpa using ih
    · rw [splitOnChar_cons, if_neg hx, hys]
      rw [hys] at ih
      cases ys with
      | nil =>
        show x :: y₀ = x :: xs
        simpa using ih
      | cons z zs =>
        rw [joinSep_cons_cons] at ih ⊢
        show (x :: y₀) ++ [c] ++ joinSep [c] (z :: zs) = x :: xs
        simpa using ih

/-! ## Stepping lemmas for `parseLines` -/

theorem parseLines_nil (cf : Option (List Char)) (cc : List (List Char)) (cb : Bool)
    (acc : List PyFile) : parseLines [] cf cc cb acc = some (acc ++ flushPart cf cc) := rfl

theorem parseLines_cons (line : List Char) (rest : List (List Char)) (cf : Option (List Char))
    (cc : List (List Char)) (cb : Bool) (acc : List PyFile) :
    parseLines (line :: rest) cf cc cb acc =
      if fileTag.isPrefixOf line then
        match (splitOnChar backquote line)[1]? with
        | none => none
        | some name => parseLines rest (some (pyStrip name)) [] false (acc ++ flushPart cf cc)
      else if fenceLine.isPrefixOf line then
        parseLines rest cf cc (!cb) acc
      else
        parseLines rest cf (cc ++ [line]) cb acc := rfl

theorem parseLines_file {line : List Char} (hfile : fileTag.isPrefixOf line = true)
    {name : List Char} (hname : (splitOnChar backquote line)[1]? = some name)
    (rest : List (List Char)) (cf : Option (List Char)) (cc : List (List Char)) (cb : Bool)
    (acc : List PyFile) :
    parseLines (line :: rest) cf cc cb acc =
      parseLines rest (some (pyStrip name)) [] false (acc ++ flushPart cf cc) := by
  rw [parseLines_cons, if_pos hfile, hname]

theorem parseLines_file_raise {line : List Char} (hfile : fileTag.isPrefixOf line = true)
    (hname : (splitOnChar backquote line)[1]? = none)
    (rest : List (List Char)) (cf : Option (List Char)) (cc : List (List Char)) (cb : Bool)
    (acc : List PyFile) :
    parseLines (line :: rest) cf cc cb acc = none := by
  rw [parseLines_cons, if_pos hfile, hname]

theorem parseLines_fence {line : List Char} (hfile : fileTag.isPrefixOf line = false)
    (hfence : fenceLine.isPrefixOf line = true)
    (rest : List (List Char)) (cf : Option (List Char)) (cc : List (List Char)) (cb : Bool)
    (acc : List PyFile) :
    parseLines (line :: rest) cf cc cb acc = parseLines rest cf cc (!cb) acc := by
  rw [parseLines_cons, if_neg (by simp [hfile]), if_pos hfence]

theorem parseLines_other {line : List Char} (hfile : fileTag.isPrefixOf line = false)
    (hfence : fenceLine.isPrefixOf line = false)
    (rest : List (List Char)) (cf : Option (List Char)) (cc : List (List Char)) (cb : Bool)
    (acc : List PyFile) :
    parseLines (line :: rest) cf cc cb acc = parseLines rest cf (cc ++ [line]) cb acc := by
  rw [parseLines_cons, if_neg (by simp [hfile]), if_neg (by simp [hfence])]

theorem parseLines_skip_plain {ls : List (List Char)}
    (h : ∀ l ∈ ls, fileTag.isPrefixOf l = false ∧ fenceLine.isPrefixOf l = false) :
    ∀ rest cf cc cb acc,
      parseLines (ls ++ rest) cf cc cb acc = parseLines rest cf (cc ++ ls) cb acc := by
  induction ls with
  | nil => intro rest cf cc cb acc; simp
  | cons l ls ih =>
    intro rest cf cc cb acc
    obtain ⟨h1, h2⟩ := h l (by simp)
    rw [List.cons_append, parseLines_other h1 h2, ih (fun x hx => h x (by simp [hx]))]
    simp [List.append_assoc]

/-! ## Line decomposition of a serialized entry -/

theorem entryText_eq (f : PyFile) :
    entryText f = headLine f ++ '\n' :: (fenceLine ++ '\n' :: (f.code ++ '\n' :: fenceLine)) := by
  have h1 : "`:\n```\n".toList = "`:".toList ++ '\n' :: (fenceLine ++ ['\n']) := by decide
  have h2 : "\n```".toList = '\n' :: fenceLine := by decide
  simp only [entryText, headLine, h1, h2]
  simp [List.append_assoc]

theorem splitOnChar_entryText (f : PyFile) (hnl : '\n' ∉ f.file) :
    splitOnChar '\n' (entryText f) = entryLines f := by
  have hline : ∀ a ∈ headLine f, a ≠ '\n' := by
    intro a ha hcontra
    subst hcontra
    simp only [headLine, List.mem_append] at ha
    rcases ha with (ha | ha) | ha
    · exact absurd ha (by decide)
    · exact hnl ha
    · exact absurd ha (by decide)
  have hfence : ∀ a ∈ fenceLine, a ≠ '\n' := by decide
  rw [entryText_eq, splitOnChar_append_cons, splitOnChar_append_cons,
    splitOnChar_append_cons, splitOnChar_eq_single hline, splitOnChar_eq_single hfence]
  simp [entryLines]

theorem splitOnChar_body (files : List PyFile) (hnl : ∀ f ∈ files, '\n' ∉ f.file) :
    files ≠ [] →
      splitOnChar '\n' (joinSep ['\n'] (files.map entryText)) =
        (files.map entryLines).flatten := by
  induction files with
  | nil => intro h; exact absurd rfl h
  | cons f fs ih =>
    intro _
    cases fs with
    | nil =>
      show splitOnChar '\n' (joinSep ['\n'] [entryText f]) = _
      rw [show joinSep ['\n'] [entryText f] = entryText f from rfl,
        splitOnChar_entryText f (hnl f (by simp))]
      simp
    | cons g fs' =>
      have hjoin : joinSep ['\n'] ((f :: g :: fs').map entryText) =
          entryText f ++ '\n' :: joinSep ['\n'] ((g :: fs').map entryText) := by
        simp only [List.map_cons]
        rw [joinSep_cons_cons]
        simp [List.append_assoc]
      rw [hjoin, splitOnChar_append_cons, splitOnChar_entryText f (hnl f (by simp)),
        ih (fun x hx => hnl x (by simp [hx])) (by simp)]
      simp

/-! ## The serialized response through the fence-handling stage -/

theorem entryText_head? (f : PyFile) : (entryText f).head? = some 'F' := rfl

theorem entryText_getLast? (f : PyFile) : (entryText f).getLast? = some backquote := by
  unfold entryText
  rw [List.getLast?_append]
  have h : ("\n```".toList).getLast? = some backquote := by decide
  rw [h]
  rfl

theorem body_head? (files : List PyFile) (hne : files ≠ []) :
    (joinSep ['\n'] (files.map entryText)).head? = some 'F' := by
  cases files with
  | nil => exact absurd rfl hne
  | cons f fs =>
    cases fs with
    | nil => exact entryText_head? f
    | cons g fs' =>
      simp only [List.map_cons]
      rw [joinSep_cons_cons]
      rw [List.append_assoc, List.head?_append, entryText_head?]
      rfl

theorem body_getLast? (files : List PyFile) (hne : files ≠ []) :
    (joinSep ['\n'] (files.map entryText)).getLast? = some backquote := by
  induction files with
  | nil => exact absurd rfl hne
  | cons f fs ih =>
    cases fs with
    | nil => exact entryText_getLast? f
    | cons g fs' =>
      simp only [List.map_cons]
      rw [joinSep_cons_cons]
      rw [List.getLast?_append]
      have := ih (by simp)
      simp only [List.map_cons] at this
      rw [this]
      rfl

theorem pyStrip_body (files : List PyFile) (hne : files ≠ []) :
    pyStrip (joinSep ['\n'] (files.map entryText)) = joinSep ['\n'] (files.map entryText) := by
  apply pyStrip_eq_self
  · intro c hc
    rw [body_head? files hne] at hc
    cases hc
    decide
  · intro c hc
    rw [body_getLast? files hne] at hc
    cases hc
    decide

theorem splitFirst_fence_start (l : List Char) :
    splitFirst tildeFence ('~' :: '~' :: '~' :: l) = some l := by
  have hpre : tildeFence.isPrefixOf ('~' :: '~' :: '~' :: l) = true := by
    simp [tildeFence, List.isPrefixOf]
  simp [splitFirst, hpre, tildeFence]

theorem serialize_strip (files : List PyFile) :
    pyStrip (response_to_markdown_prompt files) = response_to_markdown_prompt files := by
  apply pyStrip_eq_self
  · intro c hc
    cases hc
    decide
  · intro c hc
    unfold response_to_markdown_prompt at hc
    rw [List.getLast?_append] at hc
    have h : ("\n~~~".toList).getLast? = some '~' := by decide
    rw [h] at hc
    cases hc
    decide

theorem validate_serialize (files : List PyFile) (hne : files ≠ [])
    (hnl : ∀ f ∈ files, '\n' ∉ f.file) :
    validate_response (response_to_markdown_prompt files) =
      (parseLines ((files.map entryLines).flatten) none [] false []).map PyVal.vlist := by
  unfold validate_response
  rw [serialize_strip files]
  have hshape : response_to_markdown_prompt files =
      '~' :: '~' :: '~' :: '\n' :: (joinSep ['\n'] (files.map entryText) ++ "\n~~~".toList) := by
    unfold response_to_markdown_prompt
    have : "~~~\n".toList = '~' :: '~' :: '~' :: '\n' :: [] := by decide
    rw [this]
    simp [List.append_assoc]
  rw [hshape, splitFirst_fence_start]
  have hsplit2 : '\n' :: (joinSep ['\n'] (files.map entryText) ++ "\n~~~".toList) =
      (('\n' :: joinSep ['\n'] (files.map entryText)) ++ ['\n']) ++ tildeFence := by
    have h : "\n~~~".toList = '\n' :: tildeFence := by decide
    rw [h]
    simp [List.append_assoc]
  rw [hsplit2]
  show lineParse (cutAfterLast tildeFence
    (('\n' :: joinSep ['\n'] (files.map entryText) ++ ['\n']) ++ tildeFence)) = _
  rw [cutAfterLast_append_self (by decide : tildeFence ≠ [])]
  unfold lineParse
  rw [pyStrip_concat_space (by decide : isPySpace '\n' = true),
    pyStrip_cons_space (by decide : isPySpace '\n' = true),
    pyStrip_body files hne, splitOnChar_body files hnl hne]

/-! ## Scanning the serialized entries -/

theorem fileTag_isPre_headLine (f : PyFile) : fileTag.isPrefixOf (headLine f) = true := by
  have h : headLine f = 'F' :: 'i' :: 'l' :: 'e' :: ':' :: ' ' ::
      (backquote :: (f.file ++ "`:".toList)) := by
    unfold headLine
    have h7 : "File: `".toList =
        'F' :: 'i' :: 'l' :: 'e' :: ':' :: ' ' :: backquote :: [] := by decide
    rw [h7]
    simp
  rw [h]
  have htag : fileTag = 'F' :: 'i' :: 'l' :: 'e' :: ':' :: ' ' :: [] := by decide
  rw [htag]
  simp [List.isPrefixOf]

theorem headLine_split (f : PyFile) (hbq : backquote ∉ f.file) :
    (splitOnChar backquote (headLine f))[1]? = some f.file := by
  have h : headLine f = "File: ".toList ++ backquote :: (f.file ++ backquote :: [':']) := by
    unfold headLine
    have h7 : "File: `".toList = "File: ".toList ++ [backquote] := by decide
    have h2 : "`:".toList = backquote :: [':'] := by decide
    rw [h7, h2]
    simp [List.append_assoc]
  rw [h, splitOnChar_append_cons, splitOnChar_append_cons]
  rw [splitOnChar_eq_single (l := "File: ".toList) (by decide)]
  rw [splitOnChar_eq_single (fun a ha hc => hbq (by rwa [hc] at ha))]
  rw [splitOnChar_eq_single (l := [':']) (by decide)]
  rfl

theorem parseLines_entries (files : List PyFile)
    (h : ∀ f ∈ files, goodName f.file ∧ goodCode f.code) :
    ∀ cf cc cb acc,
      parseLines ((files.map entryLines).flatten) cf cc cb acc =
        some (acc ++ flushPart cf cc ++ files) := by
  induction files with
  | nil => intro cf cc cb acc; simp [parseLines_nil]
  | cons f fs ih =>
    intro cf cc cb acc
    obtain ⟨⟨hne, hbq, hnl, hstrip⟩, hcne, hclines⟩ := h f (by simp)
    have hflat : ((f :: fs).map entryLines).flatten =
        headLine f :: fenceLine ::
          (splitOnChar '\n' f.code ++ (fenceLine :: (fs.map entryLines).flatten)) := by
      simp [entryLines, List.append_assoc]
    rw [hflat]
    rw [parseLines_file (fileTag_isPre_headLine f) (headLine_split f hbq)]
    rw [parseLines_fence (by decide) (by decide)]
    rw [parseLines_skip_plain hclines]
    rw [parseLines_fence (by decide) (by decide)]
    rw [ih (fun g hg => h g (by simp [hg]))]
    have hflush : flushPart (some (pyStrip f.file)) ([] ++ splitOnChar '\n' f.code) = [f] := by
      rw [hstrip, List.nil_append]
      unfold flushPart
      have ht : fileTruthy (some f.file) = true := by
        unfold fileTruthy
        simpa using hne
      have hcc : (splitOnChar '\n' f.code).isEmpty = false := by
        cases hsp : splitOnChar '\n' f.code with
        | nil => exact absurd hsp (splitOnChar_ne_nil '\n' f.code)
        | cons a as => rfl
      rw [ht, hcc]
      simp [joinSep_splitOnChar]
    rw [hflush]
    simp [List.append_assoc]

theorem parseLines_no_file :
    ∀ ls : List (List Char), (∀ l ∈ ls, fileTag.isPrefixOf l = false) →
      ∀ cc cb, parseLines ls none cc cb [] = some [] := by
  intro ls
  induction ls with
  | nil => intro _ cc cb; rfl
  | cons l ls ih =>
    intro h cc cb
    cases hf : fenceLine.isPrefixOf l with
    | true =>
      rw [parseLines_fence (h l (by simp)) hf]
      exact ih (fun x hx => h x (by simp [hx])) cc (!cb)
    | false =>
      rw [parseLines_other (h l (by simp)) hf]
      exact ih (fun x hx => h x (by simp [hx])) (cc ++ [l]) cb

/-! ## Claim C1: round trip of serialization and parsing -/

/-- C1 (counterexample): the round-trip claim as stated is false.  The
single-element list with path `a` and non-empty content ```` ``` ````
satisfies the claim's hypotheses (distinct paths, non-empty content),
but serializing and re-parsing it yields the empty list, because the
content line is swallowed by the code-fence toggle. -/
theorem c1_counterexample :
    validate_response (response_to_markdown_prompt [⟨"a".toList, "```".toList⟩]) ≠
      some (PyVal.vlist [⟨"a".toList, "```".toList⟩]) := by decide

/-- C1 (amended): for every non-empty list of files with distinct paths
and non-empty content — where additionally each path is non-empty,
contains no backtick and no newline and has no surrounding whitespace,
and no content line starts with `File: ` or with three backticks —
serializing with `response_to_markdown_prompt` and parsing with
`validate_response` returns exactly the original list, with order,
file names and content preserved. -/
theorem c1_roundtrip_amended (files : List PyFile) (hne : files ≠ [])
    (hdist : files.Pairwise (fun a b => a.file ≠ b.file))
    (hgood : ∀ f ∈ files, goodName f.file ∧ goodCode f.code) :
    validate_response (response_to_markdown_prompt files) = some (PyVal.vlist files) := by
  rw [validate_serialize files hne (fun f hf => ((hgood f hf).1).2.2.1),
    parseLines_entries files hgood]
  rfl

/-- Witness for C1 (amended) at a concrete two-file list. -/
theorem c1_roundtrip_amended_witness :
    (([⟨"a.py".toList, "print(1)".toList⟩, ⟨"b.py".toList, "x = 2".toList⟩] : List PyFile) ≠ [] ∧
      ([⟨"a.py".toList, "print(1)".toList⟩, ⟨"b.py".toList, "x = 2".toList⟩] :
        List PyFile).Pairwise (fun a b => a.file ≠ b.file) ∧
      ∀ f ∈ ([⟨"a.py".toList, "print(1)".toList⟩, ⟨"b.py".toList, "x = 2".toList⟩] :
        List PyFile), goodName f.file ∧ goodCode f.code) ∧
    validate_response (response_to_markdown_prompt
        [⟨"a.py".toList, "print(1)".toList⟩, ⟨"b.py".toList, "x = 2".toList⟩]) =
      some (PyVal.vlist [⟨"a.py".toList, "print(1)".toList⟩, ⟨"b.py".toList, "x = 2".toList⟩]) :=
  ⟨⟨by decide, by decide, by decide⟩,
    c1_roundtrip_amended _ (by decide) (by decide) (by decide)⟩

/-! ## Claim C3: a response with no `~~~` raises -/

/-- C3: for every response containing no `~~~` at all, `validate_response`
signals failure (the modelled `IndexError` from `split("~~~", 1)[1]`)
instead of returning an empty or partial result. -/
theorem c3_missing_fence_raises (r : List Char) (h : containsSub tildeFence r = false) :
    validate_response r = none := by
  have hno : ∀ i, occursAt tildeFence r i = false := by
    intro i
    cases hocc : occursAt tildeFence r i with
    | false => rfl
    | true =>
      exfalso
      have hle : i ≤ r.length := occursAt_le_length (by decide) hocc
      have hcon : containsSub tildeFence r = true := by
        unfold containsSub
        rw [List.any_eq_true]
        exact ⟨i, List.mem_range.mpr (by omega), hocc⟩
      rw [h] at hcon
      exact Bool.noConfusion hcon
  have hstrip := noOcc_pyStrip (by decide : tildeFence ≠ []) hno
  unfold validate_response
  rw [(splitFirst_eq_none_iff (by decide) (pyStrip r)).mpr hstrip]

/-- Witness for C3 at the fence-free response `hello world`. -/
theorem c3_missing_fence_raises_witness :
    containsSub tildeFence "hello world".toList = false ∧
      validate_response "hello world".toList = none :=
  ⟨by decide, c3_missing_fence_raises _ (by decide)⟩

/-! ## Claim C6: balanced fences without `File: ` lines parse to `[]` -/

/-- C6: for every response made of balanced `~~~` fences whose interior
has no line starting with `File: `, `validate_response` returns the
empty list — a returned value, not the raised-failure outcome `none`. -/
theorem c6_no_file_lines_empty (t : List Char)
    (h : ∀ l ∈ splitOnChar '\n' (pyStrip t), fileTag.isPrefixOf l = false) :
    validate_response (tildeFence ++ t ++ tildeFence) = some (PyVal.vlist []) := by
  unfold validate_response
  have hstrip : pyStrip (tildeFence ++ t ++ tildeFence) = tildeFence ++ t ++ tildeFence := by
    apply pyStrip_eq_self
    · intro c hc
      cases hc
      decide
    · intro c hc
      rw [List.getLast?_append] at hc
      have hlast : tildeFence.getLast? = some '~' := by decide
      rw [hlast] at hc
      cases hc
      decide
  rw [hstrip]
  have hsh : tildeFence ++ t ++ tildeFence = '~' :: '~' :: '~' :: (t ++ tildeFence) := rfl
  rw [hsh, splitFirst_fence_start]
  show lineParse (cutAfterLast tildeFence (t ++ tildeFence)) = _
  rw [cutAfterLast_append_self (by decide : tildeFence ≠ [])]
  unfold lineParse
  rw [parseLines_no_file _ h]
  rfl

/-- Witness for C6 at a concrete fenced response without `File: ` lines. -/
theorem c6_no_file_lines_empty_witness :
    (∀ l ∈ splitOnChar '\n' (pyStrip "just some text\nand more".toList),
      fileTag.isPrefixOf l = false) ∧
    validate_response (tildeFence ++ "just some text\nand more".toList ++ tildeFence) =
      some (PyVal.vlist []) :=
  ⟨by decide, c6_no_file_lines_empty _ (by decide)⟩

/-! ## Claim C5: persistence writes and returned directory -/

/-- C5: on the two-file list from the claim with project name
`My Project` and projects root `/root`, `save_code_to_project` writes
`/root/my-project/a/b.py` with `x` and `/root/my-project/c.py` with `y`,
and returns the directory of the last file written, `/root/my-project`
— which is not the first file's directory `/root/my-project/a`. -/
theorem c5_save_concrete :
    save_code_to_project "/root".toList
        [⟨"a/b.py".toList, "x".toList⟩, ⟨"c.py".toList, "y".toList⟩] "My Project".toList =
      ([("/root/my-project/a/b.py".toList, "x".toList),
        ("/root/my-project/c.py".toList, "y".toList)], some "/root/my-project".toList) ∧
    dirPart "/root/my-project/a/b.py".toList ≠ "/root/my-project".toList := by
  decide

/-! ## Claim C7: project-path derivation -/

/-- C7: `get_project_path` is the pure function that lowercases the name,
replaces spaces with hyphens and joins the slug to the projects root,
exactly as the spec words it; in particular on root `/root` and name
`My Project` it yields `/root/my-project`. -/
theorem c7_project_path :
    (∀ root name : List Char, get_project_path root name = specProjectPath root name) ∧
      get_project_path "/root".toList "My Project".toList = "/root/my-project".toList := by
  constructor
  · intro root name
    unfold get_project_path specProjectPath pySlug
    rw [List.map_map]
    rfl
  · decide

/-! ## Claim C4: event emission -/

theorem emulate_cons {B : Type} (fresh : Snapshot B) (store : List (Snapshot B))
    (f : PyFile) (fs : List PyFile) :
    emulate_code_writing fresh store (f :: fs) =
      match store.getLast? with
      | none => none
      | some cur =>
        emulate_code_writing fresh (store ++ [writingSnap fresh cur.browser_session f]) fs := rfl

/-- C4: when the store holds at least one snapshot, `emulate_code_writing`
on `N` files appends exactly `N` snapshots in file order; the `i`-th
appended snapshot carries the `i`-th file's code as its terminal output
and the browser session of the snapshot that was latest before the first
append, unchanged across all appends. -/
theorem c4_emulate_snapshots {B : Type} (fresh : Snapshot B) (store : List (Snapshot B))
    (s0 : Snapshot B) (files : List PyFile) (h : store.getLast? = some s0) :
    emulate_code_writing fresh store files =
      some (store ++ files.map (writingSnap fresh s0.browser_session)) := by
  induction files generalizing store s0 with
  | nil => simp [emulate_code_writing]
  | cons f fs ih =>
    rw [emulate_cons, h]
    show emulate_code_writing fresh (store ++ [writingSnap fresh s0.browser_session f]) fs = _
    rw [ih (store ++ [writingSnap fresh s0.browser_session f])
      (writingSnap fresh s0.browser_session f) (List.getLast?_concat _)]
    have hb : (writingSnap fresh s0.browser_session f).browser_session = s0.browser_session := rfl
    rw [hb]
    simp [List.append_assoc]

/-- Witness for C4 on a one-element store and one file. -/
theorem c4_emulate_snapshots_witness :
    (([⟨5, [], ⟨[], [], []⟩⟩] : List (Snapshot Nat)).getLast? = some ⟨5, [], ⟨[], [], []⟩⟩) ∧
    emulate_code_writing (⟨0, [], ⟨[], [], []⟩⟩ : Snapshot Nat) [⟨5, [], ⟨[], [], []⟩⟩]
        [⟨"a.py".toList, "x".toList⟩] =
      some ([⟨5, [], ⟨[], [], []⟩⟩] ++
        [⟨"a.py".toList, "x".toList⟩].map
          (writingSnap (⟨0, [], ⟨[], [], []⟩⟩ : Snapshot Nat) 5)) :=
  ⟨rfl, c4_emulate_snapshots (⟨0, [], ⟨[], [], []⟩⟩ : Snapshot Nat) [⟨5, [], ⟨[], [], []⟩⟩]
    ⟨5, [], ⟨[], [], []⟩⟩ [⟨"a.py".toList, "x".toList⟩] rfl⟩

/-! ## Claim C2: the retry path raises instead of retrying -/

/-- C2: with a client whose first response parses to a falsy result and
whose second response is well-formed, `execute` does not re-invoke the
sequence and return the later well-formed parse: the retry statement
`return self.execute(step_by_step_plan, user_context, search_results)`
omits the required `project_name` argument, so the call raises
`TypeError` — even though a retry would have produced the well-formed
list, as the second conjunct shows. -/
theorem c2_retry_type_error :
    execute c2Responses (⟨(), [], ⟨[], [], []⟩⟩ : Snapshot Unit) [⟨(), [], ⟨[], [], []⟩⟩] =
      .error ExecErr.retryArity ∧
    validate_response (c2Responses 1) =
      some (PyVal.vlist [⟨"a.py".toList, "x".toList⟩]) :=
  ⟨rfl, by decide⟩

/-! ## Claim C8: `File: ` lines and backtick counting -/

/-- C8 (counterexample): a `File: ` line with exactly one backtick —
fewer than two — does not make `validate_response` fault: the response
containing the header line ``File: `a.py`` parses successfully, taking
everything after the single backtick as the file name. -/
theorem c8_counterexample :
    validate_response "~~~\nFile: `a.py\n```\nx\n```\n~~~".toList =
      some (PyVal.vlist [⟨"a.py".toList, "x".toList⟩]) := by
  decide

/-- C8 (amended): a parsed line that starts with `File: ` and contains
no backtick at all makes the file-name extraction of `validate_response`
fault (the modelled `IndexError` of `line.split("`")[1]`). -/
theorem c8_no_backquote_faults (line : List Char) (rest : List (List Char))
    (cf : Option (List Char)) (cc : List (List Char)) (cb : Bool) (acc : List PyFile)
    (hfile : fileTag.isPrefixOf line = true) (hbq : backquote ∉ line) :
    parseLines (line :: rest) cf cc cb acc = none := by
  apply parseLines_file_raise hfile
  rw [splitOnChar_eq_single (fun a ha hc => hbq (by rwa [hc] at ha))]
  rfl

/-- Witness for C8 (amended) at the backtick-free line `File: a.py`. -/
theorem c8_no_backquote_faults_witness :
    (fileTag.isPrefixOf "File: a.py".toList = true ∧ backquote ∉ "File: a.py".toList) ∧
    parseLines ["File: a.py".toList] none [] false [] = none :=
  ⟨⟨by decide, by decide⟩, c8_no_backquote_faults _ [] none [] false [] (by decide) (by decide)⟩

/-! ## Claim C9: a single fence -/

/-- C9 (counterexample): the claim that `validate_response` never
signals failure on a response whose trimmed text holds exactly one
`~~~` is false: on `~~~\nFile: ab` the missing-closing-fence slice drops
the final character, leaving the line `File: a`, whose backtick-free
`File: ` header then faults. -/
theorem c9_counterexample :
    countOcc tildeFence (pyStrip "~~~\nFile: ab".toList) = 1 ∧
      validate_response "~~~\nFile: ab".toList = none := by
  decide

/-- C9 (amended): on a response whose trimmed text holds exactly one
occurrence of `~~~`, the fence-handling stage itself signals no failure:
the search for a last `~~~` in the remaining text finds nothing, so only
the final character of the remaining text is dropped and the rest is
handed to the line parser as if properly fenced (which may still fault
on its own, as the counterexample shows). -/
theorem c9_single_fence_behavior (r : List Char) (i : Nat)
    (hocc : occursAt tildeFence (pyStrip r) i = true)
    (hcount : countOcc tildeFence (pyStrip r) = 1) :
    validate_response r =
      lineParse (((pyStrip r).drop (i + 3)).take
        (((pyStrip r).drop (i + 3)).length - 1)) := by
  have huniq : ∀ j, occursAt tildeFence (pyStrip r) j = true → j = i := by
    intro j hj
    unfold countOcc at hcount
    obtain ⟨a, ha⟩ := List.length_eq_one.mp hcount
    have hmem : ∀ k, occursAt tildeFence (pyStrip r) k = true →
        k ∈ (List.range ((pyStrip r).length + 1)).filter
          (fun x => occursAt tildeFence (pyStrip r) x) := by
      intro k hk
      rw [List.mem_filter]
      refine ⟨List.mem_range.mpr ?_, hk⟩
      have := occursAt_le_length (by decide : tildeFence ≠ []) hk
      omega
    have hi := hmem i hocc
    have hjm := hmem j hj
    rw [ha] at hi hjm
    simp at hi hjm
    rw [hi, hjm]
  have hmin : ∀ j, j < i → occursAt tildeFence (pyStrip r) j = false := by
    intro j hlt
    cases hc : occursAt tildeFence (pyStrip r) j with
    | false => rfl
    | true => exact absurd (huniq j hc) (by omega)
  have hsf := splitFirst_eq_of_first hocc hmin
  have h3 : tildeFence.length = 3 := rfl
  rw [h3] at hsf
  have hnone : rfindSub tildeFence ((pyStrip r).drop (i + 3)) = none := by
    rw [rfindSub_eq_none_iff (by decide)]
    intro j
    rw [occursAt_drop]
    cases hc : occursAt tildeFence (pyStrip r) (i + 3 + j) with
    | false => rfl
    | true => exact absurd (huniq _ hc) (by omega)
  unfold validate_response
  rw [hsf]
  show lineParse (cutAfterLast tildeFence ((pyStrip r).drop (i + 3))) = _
  rw [cutAfterLast_of_none hnone]

/-- Witness for C9 (amended) at `~~~\nhello`. -/
theorem c9_single_fence_behavior_witness :
    (occursAt tildeFence (pyStrip "~~~\nhello".toList) 0 = true ∧
      countOcc tildeFence (pyStrip "~~~\nhello".toList) = 1) ∧
    validate_response "~~~\nhello".toList =
      lineParse (((pyStrip "~~~\nhello".toList).drop (0 + 3)).take
        (((pyStrip "~~~\nhello".toList).drop (0 + 3)).length - 1)) :=
  ⟨⟨by decide, by decide⟩, c9_single_fence_behavior _ 0 (by decide) (by decide)⟩

/-! ## Claim C10: the parser only ever returns lists -/

/-- C10: despite the annotated `Union[List[Dict[str, str]], bool]`
return type, every value `validate_response` actually returns (rather
than raising) is a list of file/code records, and the empty list is the
only falsy value it can produce — so the retry check in `execute` can
only ever observe a list. -/
theorem c10_only_lists (r : List Char) (v : PyVal) (h : validate_response r = some v) :
    ∃ fs, v = PyVal.vlist fs ∧ (pyFalsy v = true ↔ fs = []) := by
  unfold validate_response at h
  cases hsf : splitFirst tildeFence (pyStrip r) with
  | none =>
    rw [hsf] at h
    exact absurd h (by simp)
  | some r1 =>
    rw [hsf] at h
    unfold lineParse at h
    rw [Option.map_eq_some'] at h
    obtain ⟨fs, _, hv⟩ := h
    refine ⟨fs, hv.symm, ?_⟩
    rw [← hv]
    simp [pyFalsy, List.isEmpty_iff]

/-- Witness for C10 at a well-formed response. -/
theorem c10_only_lists_witness :
    validate_response "~~~\nFile: `a`:\n```\nx\n```\n~~~".toList =
      some (PyVal.vlist [⟨"a".toList, "x".toList⟩]) ∧
    ∃ fs, PyVal.vlist [⟨"a".toList, "x".toList⟩] = PyVal.vlist fs ∧
      (pyFalsy (PyVal.vlist [⟨"a".toList, "x".toList⟩]) = true ↔ fs = []) :=
  ⟨by decide, c10_only_lists "~~~\nFile: `a`:\n```\nx\n```\n~~~".toList
    (PyVal.vlist [⟨"a".toList, "x".toList⟩]) (by decide)⟩

end Coder
